import Mathlib

/-!
Shallow embedding of the NumWorks raycaster demo (noom.py): grid map
classification, circle-vs-grid collision, axis-separated movement, the DDA
raycaster, distance shading, the run-length merge in the column renderer,
and the per-tick frame scheduling.  Real-valued (Python float) arithmetic is
modelled exactly over ℚ; Python `int(...)` truncation toward zero is modelled
by `pyInt`.
-/

/-- Screen width in pixels (`W = 320`). -/
def SCREEN_W : ℤ := 320

/-- Screen height in pixels (`H = 240`). -/
def SCREEN_H : ℤ := 240

/-- `HALF_H = H // 2`. -/
def HALF_H : ℤ := 120

/-- Number of logical ray columns (`RENDER_W = 80`). -/
def RENDER_W : ℕ := 80

/-- Width in physical pixels of one logical column (`COL_W = W // RENDER_W = 4`). -/
def COL_W : ℤ := 4

/-- The grid map, an ordered list of equal-length rows (`MAP` in noom.py). -/
def MAP : List (List Char) :=
  [ "#########################################".toList,
    "##########################.....##########".toList,
    "######################.........##########".toList,
    "#.........############.###.........######".toList,
    "#...####..#.####.......#####.#####..#####".toList,
    "#...#.........................#####.....#".toList,
    "#...####..#.####.......#.......####..##.#".toList,
    "#.........######.......#..............#.#".toList,
    "##################...###..............#.#".toList,
    "########################..............#.#".toList,
    "#################################.#####.#".toList,
    "#################################.#####.#".toList,
    "#################################.###...#".toList,
    "###############################....##...#".toList,
    "##############################......#...#".toList,
    "##############################......#####".toList,
    "#################################.#######".toList,
    "#################################D#######".toList ]

/-- `MAP_H = len(MAP)`. -/
def MAP_H : ℤ := 18

/-- `MAP_W = len(MAP[0])`. -/
def MAP_W : ℤ := 41

/-- The character stored at in-bounds cell `(mx, my)` (`MAP[my][mx]`). -/
def mapAt (mx my : ℤ) : Char :=
  (MAP.getD my.toNat []).getD mx.toNat ' '

/-- `is_wall(mx, my)`: true outside the grid bounds, otherwise true exactly
for the `'#'` symbol. -/
def isWall (mx my : ℤ) : Bool :=
  if mx < 0 ∨ my < 0 ∨ MAP_W ≤ mx ∨ MAP_H ≤ my then true
  else mapAt mx my = '#'

/-- `is_door(mx, my)`: false outside the grid bounds, otherwise true exactly
for the `'D'` symbol. -/
def isDoor (mx my : ℤ) : Bool :=
  if mx < 0 ∨ my < 0 ∨ MAP_W ≤ mx ∨ MAP_H ≤ my then false
  else mapAt mx my = 'D'

/-- Python `int(q)` on a real number: truncation toward zero. -/
def pyInt (q : ℚ) : ℤ :=
  if q < 0 then ⌈q⌉ else ⌊q⌋

/-- Fixed collision radius (`RADIUS = 0.18`). -/
def RADIUS : ℚ := 18/100

/-- `collides(x, y)`: samples the four corners of the square bounding box of
radius `RADIUS` (corner cells obtained with Python `int` truncation) and
reports whether any corner cell is a Wall or a Door. -/
def collides (x y : ℚ) : Bool :=
  (isWall (pyInt (x - RADIUS)) (pyInt (y - RADIUS)) ||
    isDoor (pyInt (x - RADIUS)) (pyInt (y - RADIUS))) ||
  (isWall (pyInt (x + RADIUS)) (pyInt (y - RADIUS)) ||
    isDoor (pyInt (x + RADIUS)) (pyInt (y - RADIUS))) ||
  (isWall (pyInt (x - RADIUS)) (pyInt (y + RADIUS)) ||
    isDoor (pyInt (x - RADIUS)) (pyInt (y + RADIUS))) ||
  (isWall (pyInt (x + RADIUS)) (pyInt (y + RADIUS)) ||
    isDoor (pyInt (x + RADIUS)) (pyInt (y + RADIUS)))

/-- `try_move(nx, ny)` acting on the player position `(px, py)`: commit the X
move when `(nx, py)` is collision-free, then commit the Y move when the target
at the (possibly updated) X is collision-free. -/
def tryMove (px py nx ny : ℚ) : ℚ × ℚ :=
  let px1 := if collides nx py then px else nx
  let py1 := if collides px1 ny then py else ny
  (px1, py1)

/-- The spec's reading of a blocked bounding-box corner: the grid cell that
geometrically contains the corner point (floor on both coordinates) is a Wall
or a Door. -/
def specCornerBlocked (cx cy : ℚ) : Prop :=
  isWall ⌊cx⌋ ⌊cy⌋ = true ∨ isDoor ⌊cx⌋ ⌊cy⌋ = true

/-- Number of discrete shade levels (`SHADE_LEVELS = 16`). -/
def SHADE_LEVELS : ℕ := 16

/-- Distance at which shading saturates (`MAX_SHADE_DIST = 6.0`). -/
def MAX_SHADE_DIST : ℚ := 6

/-- The render loop's saturation guard `if t > 1.0: t = 1.0`. -/
def clamp1 (t : ℚ) : ℚ :=
  if t > 1 then 1 else t

/-- The shade ramp index computed by `render`:
`shade_idx = int((1.0 - t) * (SHADE_LEVELS - 1))` with
`t = dist / MAX_SHADE_DIST` clamped to at most 1. -/
def shadeIdx (dist : ℚ) : ℤ :=
  pyInt ((1 - clamp1 (dist / MAX_SHADE_DIST)) * ((SHADE_LEVELS : ℚ) - 1))

/-- The spec's stated formula for the ramp index, with `round` instead of the
code's `int` truncation. -/
def specShadeIdxRound (dist : ℚ) : ℤ :=
  round ((1 - min (dist / MAX_SHADE_DIST) 1) * ((SHADE_LEVELS : ℚ) - 1))

/-- The zero-direction guard in `cast_ray`:
`if ray_dx == 0.0: ray_dx = 1e-9`. -/
def clampDir (d : ℚ) : ℚ :=
  if d = 0 then 1/1000000000 else d

/-- Result of one DDA traversal: final cell, the axis stepped last
(`side = 0` for X, `1` for Y), and the hit tile symbol. -/
structure DdaHit where
  mx : ℤ
  my : ℤ
  side : ℕ
  tile : Char

/-- The bounded DDA loop of `cast_ray` (`for _ in range(64)` generalised over
its iteration budget `fuel`): step along the axis with the smaller accumulated
side distance, report an out-of-bounds step as a `'#'` hit, stop on a `'#'` or
`'D'` tile, and return `none` when the budget is exhausted without a hit. -/
def ddaLoop (ddx ddy : ℚ) (sx sy : ℤ) :
    ℕ → ℚ → ℚ → ℤ → ℤ → Option DdaHit
  | 0, _, _, _, _ => none
  | fuel+1, sdx, sdy, mx, my =>
    if sdx < sdy then
      let mx1 := mx + sx
      if mx1 < 0 ∨ my < 0 ∨ MAP_W ≤ mx1 ∨ MAP_H ≤ my then some ⟨mx1, my, 0, '#'⟩
      else if mapAt mx1 my = '#' ∨ mapAt mx1 my = 'D' then
        some ⟨mx1, my, 0, mapAt mx1 my⟩
      else ddaLoop ddx ddy sx sy fuel (sdx + ddx) sdy mx1 my
    else
      let my1 := my + sy
      if mx < 0 ∨ my1 < 0 ∨ MAP_W ≤ mx ∨ MAP_H ≤ my1 then some ⟨mx, my1, 1, '#'⟩
      else if mapAt mx my1 = '#' ∨ mapAt mx my1 = 'D' then
        some ⟨mx, my1, 1, mapAt mx my1⟩
      else ddaLoop ddx ddy sx sy fuel sdx (sdy + ddy) mx my1

/-- The initialisation part of `cast_ray`: start cell, clamped direction,
delta distances, step signs and initial side distances. -/
structure RaySetup where
  dx : ℚ
  dy : ℚ
  ddx : ℚ
  ddy : ℚ
  sx : ℤ
  sy : ℤ
  sdx : ℚ
  sdy : ℚ
  mx : ℤ
  my : ℤ

/-- `cast_ray`'s setup computations before the DDA loop. -/
def raySetup (px py rdx rdy : ℚ) : RaySetup :=
  let mx := pyInt px
  let my := pyInt py
  let dx := clampDir rdx
  let dy := clampDir rdy
  let ddx := |1 / dx|
  let ddy := |1 / dy|
  let sx : ℤ := if dx < 0 then -1 else 1
  let sdx := if dx < 0 then (px - (mx : ℚ)) * ddx else ((mx : ℚ) + 1 - px) * ddx
  let sy : ℤ := if dy < 0 then -1 else 1
  let sdy := if dy < 0 then (py - (my : ℚ)) * ddy else ((my : ℚ) + 1 - py) * ddy
  ⟨dx, dy, ddx, ddy, sx, sy, sdx, sdy, mx, my⟩

/-- The perpendicular-distance formula applied to a DDA hit. -/
def rayDist (px py : ℚ) (s : RaySetup) (hit : DdaHit) : ℚ :=
  if hit.side = 0 then ((hit.mx : ℚ) - px + (1 - (s.sx : ℚ)) * (1/2)) / s.dx
  else ((hit.my : ℚ) - py + (1 - (s.sy : ℚ)) * (1/2)) / s.dy

/-- `cast_ray` generalised over the DDA iteration budget; the program calls it
with budget 64.  Exhaustion returns the sentinel `(1e9, '#')`. -/
def castRayFuel (fuel : ℕ) (px py rdx rdy : ℚ) : ℚ × Char :=
  let s := raySetup px py rdx rdy
  match ddaLoop s.ddx s.ddy s.sx s.sy fuel s.sdx s.sdy s.mx s.my with
  | none => (1000000000, '#')
  | some hit => (rayDist px py s hit, hit.tile)

/-- `cast_ray(ray_dx, ray_dy)` for a camera at `(px, py)`. -/
def castRay (px py rdx rdy : ℚ) : ℚ × Char :=
  castRayFuel 64 px py rdx rdy

/-- Whether the DDA loop of `cast_ray` finds a hit within its 64-iteration
cap (the `hit` flag of the source). -/
def castRayHits (px py rdx rdy : ℚ) : Bool :=
  let s := raySetup px py rdx rdy
  (ddaLoop s.ddx s.ddy s.sx s.sy 64 s.sdx s.sdy s.mx s.my).isSome

/-- Remaining X-steps before the DDA walk leaves the grid horizontally. -/
def capX (sx mx : ℤ) : ℤ :=
  if sx = 1 then MAP_W - mx else mx + 1

/-- Remaining Y-steps before the DDA walk leaves the grid vertically. -/
def capY (sy my : ℤ) : ℤ :=
  if sy = 1 then MAP_H - my else my + 1

/-- An RGB colour triple as produced by the shade palettes. -/
abbrev Color := ℤ × ℤ × ℤ

/-- The per-column data entering the merge accumulator: the chosen colour, the
clipped top row `y0`, and the clipped height `h`. -/
abbrev ColSlice := Color × ℤ × ℤ

/-- The pending run of the column renderer: the fields `run_col`, `run_x`,
`run_w`, `run_y0` and `run_h` of `render`. -/
structure Run where
  col : Color
  x : ℤ
  w : ℤ
  y0 : ℤ
  h : ℤ

/-- The merge loop of `render` from the second column on: extend the pending
run exactly when colour, `y0` and height match and the new column is
horizontally adjacent; otherwise flush the pending run and restart.  After the
last column the pending run is flushed. -/
def mergeGo (i : ℤ) (p : Run) : List ColSlice → List Run
  | [] => [p]
  | (c, y0, h) :: rest =>
    if c = p.col ∧ y0 = p.y0 ∧ h = p.h ∧ i * COL_W = p.x + p.w then
      mergeGo (i + 1) {p with w := p.w + COL_W} rest
    else
      p :: mergeGo (i + 1) ⟨c, i * COL_W, COL_W, y0, h⟩ rest

/-- The full merge accumulator over one render pass: the first column starts
the pending run (`run_col is None` case), the rest go through `mergeGo`, and
an empty pass emits nothing. -/
def mergeRuns : List ColSlice → List Run
  | [] => []
  | (c, y0, h) :: rest => mergeGo 1 ⟨c, 0, COL_W, y0, h⟩ rest

/-- The coloured pixels filled by one `fill_rect(run_x, run_y0, run_w, run_h,
run_col)` call. -/
def runPixels (r : Run) : Set ((ℤ × ℤ) × Color) :=
  {q | r.x ≤ q.1.1 ∧ q.1.1 < r.x + r.w ∧ r.y0 ≤ q.1.2 ∧ q.1.2 < r.y0 + r.h ∧
       q.2 = r.col}

/-- The coloured pixels filled by a list of rectangle calls. -/
def runsPixels : List Run → Set ((ℤ × ℤ) × Color)
  | [] => ∅
  | r :: rs => runPixels r ∪ runsPixels rs

/-- The coloured pixels of one unmerged column rectangle at column index `i`
(screen strip `[i * COL_W, (i+1) * COL_W)`). -/
def colPixels (i : ℤ) (c : ColSlice) : Set ((ℤ × ℤ) × Color) :=
  runPixels ⟨c.1, i * COL_W, COL_W, c.2.1, c.2.2⟩

/-- The coloured pixels of the unmerged column rectangles starting at column
index `i`. -/
def colsPixels (i : ℤ) : List ColSlice → Set ((ℤ × ℤ) × Color)
  | [] => ∅
  | c :: rest => colPixels i c ∪ colsPixels (i + 1) rest

/-- Linear movement speed (`MOVE_SPEED = 2.2` units/sec). -/
def MOVE_SPEED : ℚ := 22/10

/-- Angular speed (`TURN_SPEED = 120.0` deg/sec). -/
def TURN_SPEED : ℚ := 120

/-- The per-tick state of the eight polled keys. -/
structure Keys where
  left : Bool
  right : Bool
  up : Bool
  down : Bool
  two : Bool
  four : Bool
  six : Bool
  eight : Bool

/-- Turn intent accumulated from LEFT/RIGHT. -/
def turnIntent (k : Keys) : ℚ :=
  (if k.left then (1:ℚ) else 0) - (if k.right then (1:ℚ) else 0)

/-- Forward/back intent accumulated from UP/EIGHT and DOWN/TWO. -/
def fwdIntent (k : Keys) : ℚ :=
  (if k.up || k.eight then (1:ℚ) else 0) - (if k.down || k.two then (1:ℚ) else 0)

/-- Strafe intent accumulated from SIX and FOUR. -/
def strafeIntent (k : Keys) : ℚ :=
  (if k.six then (1:ℚ) else 0) - (if k.four then (1:ℚ) else 0)

/-- The dirty flag of the main loop:
`need_render = (turn != 0.0) or (fwd != 0.0) or (strafe != 0.0)`. -/
def needRender (k : Keys) : Bool :=
  decide (turnIntent k ≠ 0) || decide (fwdIntent k ≠ 0) || decide (strafeIntent k ≠ 0)

/-- The turning update of the main loop:
`ang = int((ang + turn * TURN_SPEED * dt)) % 360`. -/
def angUpdate (ang : ℤ) (turn dt : ℚ) : ℤ :=
  (pyInt ((ang : ℚ) + turn * TURN_SPEED * dt)) % 360

/-- The long-lived camera state: position and integer orientation degree. -/
structure GState where
  px : ℚ
  py : ℚ
  ang : ℤ

/-- One iteration of the main loop after input polling, parameterised by the
(real-valued, startup-computed) trigonometry tables: update the angle when
turning, resolve movement through `try_move` when moving, and report whether
the render pass is invoked this tick. -/
def tick (sinT cosT : ℤ → ℚ) (s : GState) (k : Keys) (dt : ℚ) : GState × Bool :=
  let turn := turnIntent k
  let fwd := fwdIntent k
  let strafe := strafeIntent k
  let ang1 := if turn ≠ 0 then angUpdate s.ang turn dt else s.ang
  let pos1 :=
    if fwd ≠ 0 ∨ strafe ≠ 0 then
      let ca := cosT ang1
      let sa := sinT ang1
      let step := MOVE_SPEED * dt
      tryMove s.px s.py (s.px + (fwd * (-sa) + strafe * ca) * step)
        (s.py + (fwd * ca + strafe * sa) * step)
    else (s.px, s.py)
  (⟨pos1.1, pos1.2, ang1⟩, needRender k)

/-- C8 -- Out-of-bounds cells read as Wall and never as Door; in-bounds cells
read as Wall exactly for the `'#'` symbol and as Door exactly for `'D'`. -/
theorem isWall_isDoor_spec (mx my : ℤ) :
    ((mx < 0 ∨ my < 0 ∨ MAP_W ≤ mx ∨ MAP_H ≤ my) →
      isWall mx my = true ∧ isDoor mx my = false) ∧
    (0 ≤ mx → mx < MAP_W → 0 ≤ my → my < MAP_H →
      (isWall mx my = true ↔ mapAt mx my = '#') ∧
      (isDoor mx my = true ↔ mapAt mx my = 'D')) := by
  constructor
  · intro h
    constructor
    · simp [isWall, h]
    · simp [isDoor, h]
  · intro h1 h2 h3 h4
    have hnb : ¬ (mx < 0 ∨ my < 0 ∨ MAP_W ≤ mx ∨ MAP_H ≤ my) := by
      push_neg
      exact ⟨by omega, by omega, by omega, by omega⟩
    constructor
    · simp [isWall, hnb]
    · simp [isDoor, hnb]

/-- C8 witness: concrete out-of-bounds and in-bounds evaluations. -/
theorem isWall_isDoor_spec_witness :
    (isWall (-3) 5 = true ∧ isDoor (-3) 5 = false) ∧
    (isWall 1 3 = true ↔ mapAt 1 3 = '#') := by
  refine ⟨(isWall_isDoor_spec (-3) 5).1 (by left; decide), ?_⟩
  exact ((isWall_isDoor_spec 1 3).2 (by decide) (by decide) (by decide) (by decide)).1

lemma isWall_of_oob (mx my : ℤ)
    (h : mx < 0 ∨ my < 0 ∨ MAP_W ≤ mx ∨ MAP_H ≤ my) : isWall mx my = true := by
  simp [isWall, h]

/-- Evaluation helper for `pyInt` on a nonnegative rational. -/
lemma pyInt_eval (q : ℚ) (n : ℤ) (h0 : 0 ≤ q) (h1 : (n:ℚ) ≤ q) (h2 : q < n + 1) :
    pyInt q = n := by
  unfold pyInt
  rw [if_neg (not_lt.mpr h0)]
  rw [Int.floor_eq_iff]
  exact ⟨h1, by exact_mod_cast h2⟩

lemma map_col0_wall (b : ℤ) : isWall 0 b = true := by
  have hrow : ∀ n : ℕ, n < 18 → mapAt 0 (n:ℤ) = '#' := by decide
  by_cases hb : b < 0 ∨ (18 : ℤ) ≤ b
  · apply isWall_of_oob
    rcases hb with hb | hb
    · exact Or.inr (Or.inl hb)
    · exact Or.inr (Or.inr (Or.inr hb))
  · push_neg at hb
    obtain ⟨hb1, hb2⟩ := hb
    have hnb : ¬ ((0:ℤ) < 0 ∨ b < 0 ∨ MAP_W ≤ 0 ∨ MAP_H ≤ b) := by
      push_neg
      refine ⟨by omega, by omega, by decide, by simp [MAP_H]; omega⟩
    have hb' : ((b.toNat : ℕ) : ℤ) = b := Int.toNat_of_nonneg hb1
    have hn : b.toNat < 18 := by omega
    rw [← hb']
    unfold isWall
    rw [if_neg (by rw [hb']; exact hnb)]
    simp only [decide_eq_true_eq]
    exact hrow b.toNat hn

lemma map_row0_wall (a : ℤ) : isWall a 0 = true := by
  have hcol : ∀ n : ℕ, n < 41 → mapAt (n:ℤ) 0 = '#' := by decide
  by_cases ha : a < 0 ∨ (41 : ℤ) ≤ a
  · apply isWall_of_oob
    rcases ha with ha | ha
    · exact Or.inl ha
    · exact Or.inr (Or.inr (Or.inl (by simp [MAP_W]; omega)))
  · push_neg at ha
    obtain ⟨ha1, ha2⟩ := ha
    have hnb : ¬ (a < 0 ∨ (0:ℤ) < 0 ∨ MAP_W ≤ a ∨ MAP_H ≤ 0) := by
      push_neg
      refine ⟨by omega, by omega, by simp [MAP_W]; omega, by decide⟩
    have ha' : ((a.toNat : ℕ) : ℤ) = a := Int.toNat_of_nonneg ha1
    have hn : a.toNat < 41 := by omega
    rw [← ha']
    unfold isWall
    rw [if_neg (by rw [ha']; exact hnb)]
    simp only [decide_eq_true_eq]
    exact hcol a.toNat hn

/-- For this map, reading a corner's cell with Python truncation agrees with
reading the cell that geometrically contains the corner (floor): the two can
only disagree on a negative coordinate, where both land in the solid border. -/
lemma cornerOr_trunc_eq_floor (cx cy : ℚ) :
    (isWall (pyInt cx) (pyInt cy) || isDoor (pyInt cx) (pyInt cy)) =
    (isWall ⌊cx⌋ ⌊cy⌋ || isDoor ⌊cx⌋ ⌊cy⌋) := by
  by_cases hx : cx < 0
  · have hfx : ⌊cx⌋ < 0 := by
      by_contra h
      push_neg at h
      exact absurd (Int.floor_nonneg.mp h) (not_le.mpr hx)
    have hR : isWall ⌊cx⌋ ⌊cy⌋ = true := isWall_of_oob _ _ (Or.inl hfx)
    have hcx : pyInt cx = ⌈cx⌉ := by simp [pyInt, hx]
    have hceil : ⌈cx⌉ ≤ 0 := Int.ceil_le.mpr (by push_cast; exact hx.le)
    have hL : isWall (pyInt cx) (pyInt cy) = true := by
      rcases lt_or_eq_of_le hceil with h | h
      · exact isWall_of_oob _ _ (Or.inl (by omega))
      · rw [hcx, h]
        exact map_col0_wall _
    simp [hL, hR]
  · by_cases hy : cy < 0
    · have hfy : ⌊cy⌋ < 0 := by
        by_contra h
        push_neg at h
        exact absurd (Int.floor_nonneg.mp h) (not_le.mpr hy)
      have hR : isWall ⌊cx⌋ ⌊cy⌋ = true := isWall_of_oob _ _ (Or.inr (Or.inl hfy))
      have hcy : pyInt cy = ⌈cy⌉ := by simp [pyInt, hy]
      have hceil : ⌈cy⌉ ≤ 0 := Int.ceil_le.mpr (by push_cast; exact hy.le)
      have hL : isWall (pyInt cx) (pyInt cy) = true := by
        rcases lt_or_eq_of_le hceil with h | h
        · exact isWall_of_oob _ _ (Or.inr (Or.inl (by omega)))
        · rw [hcy, h]
          exact map_row0_wall _
      simp [hL, hR]
    · simp [pyInt, hx, hy]

/-- C6 -- `collides` is true exactly when one of the four bounding-box corners
lies (geometrically) in a Wall or Door cell. -/
theorem collides_spec (x y : ℚ) :
    collides x y = true ↔
      (specCornerBlocked (x - RADIUS) (y - RADIUS) ∨
       specCornerBlocked (x + RADIUS) (y - RADIUS) ∨
       specCornerBlocked (x - RADIUS) (y + RADIUS) ∨
       specCornerBlocked (x + RADIUS) (y + RADIUS)) := by
  unfold collides specCornerBlocked
  rw [cornerOr_trunc_eq_floor (x - RADIUS) (y - RADIUS),
      cornerOr_trunc_eq_floor (x + RADIUS) (y - RADIUS),
      cornerOr_trunc_eq_floor (x - RADIUS) (y + RADIUS),
      cornerOr_trunc_eq_floor (x + RADIUS) (y + RADIUS)]
  simp [Bool.or_eq_true, or_assoc]

/-- Evaluation helper: `collides` with its four truncated corner cells
rewritten to integer literals. -/
lemma collides_eval (x y : ℚ) (a b c d : ℤ)
    (h1 : pyInt (x - RADIUS) = a) (h2 : pyInt (x + RADIUS) = b)
    (h3 : pyInt (y - RADIUS) = c) (h4 : pyInt (y + RADIUS) = d) :
    collides x y =
      ((isWall a c || isDoor a c) || (isWall b c || isDoor b c) ||
       (isWall a d || isDoor a d) || (isWall b d || isDoor b d)) := by
  unfold collides
  rw [h1, h2, h3, h4]

lemma collides_start : collides (39/2) (13/2) = false := by
  rw [collides_eval (39/2) (13/2) 19 19 6 6
    (pyInt_eval _ 19 (by norm_num [RADIUS]) (by norm_num [RADIUS]) (by norm_num [RADIUS]))
    (pyInt_eval _ 19 (by norm_num [RADIUS]) (by norm_num [RADIUS]) (by norm_num [RADIUS]))
    (pyInt_eval _ 6 (by norm_num [RADIUS]) (by norm_num [RADIUS]) (by norm_num [RADIUS]))
    (pyInt_eval _ 6 (by norm_num [RADIUS]) (by norm_num [RADIUS]) (by norm_num [RADIUS]))]
  decide

lemma collides_east_wall : collides (47/2) (13/2) = true := by
  rw [collides_eval (47/2) (13/2) 23 23 6 6
    (pyInt_eval _ 23 (by norm_num [RADIUS]) (by norm_num [RADIUS]) (by norm_num [RADIUS]))
    (pyInt_eval _ 23 (by norm_num [RADIUS]) (by norm_num [RADIUS]) (by norm_num [RADIUS]))
    (pyInt_eval _ 6 (by norm_num [RADIUS]) (by norm_num [RADIUS]) (by norm_num [RADIUS]))
    (pyInt_eval _ 6 (by norm_num [RADIUS]) (by norm_num [RADIUS]) (by norm_num [RADIUS]))]
  decide

lemma collides_south_open : collides (39/2) (15/2) = false := by
  rw [collides_eval (39/2) (15/2) 19 19 7 7
    (pyInt_eval _ 19 (by norm_num [RADIUS]) (by norm_num [RADIUS]) (by norm_num [RADIUS]))
    (pyInt_eval _ 19 (by norm_num [RADIUS]) (by norm_num [RADIUS]) (by norm_num [RADIUS]))
    (pyInt_eval _ 7 (by norm_num [RADIUS]) (by norm_num [RADIUS]) (by norm_num [RADIUS]))
    (pyInt_eval _ 7 (by norm_num [RADIUS]) (by norm_num [RADIUS]) (by norm_num [RADIUS]))]
  decide

lemma collides_north_wall : collides (39/2) (3/2) = true := by
  rw [collides_eval (39/2) (3/2) 19 19 1 1
    (pyInt_eval _ 19 (by norm_num [RADIUS]) (by norm_num [RADIUS]) (by norm_num [RADIUS]))
    (pyInt_eval _ 19 (by norm_num [RADIUS]) (by norm_num [RADIUS]) (by norm_num [RADIUS]))
    (pyInt_eval _ 1 (by norm_num [RADIUS]) (by norm_num [RADIUS]) (by norm_num [RADIUS]))
    (pyInt_eval _ 1 (by norm_num [RADIUS]) (by norm_num [RADIUS]) (by norm_num [RADIUS]))]
  decide

/-- C6 witness: at the player start position no corner is blocked, and via the
equivalence `collides` evaluates to false there. -/
theorem collides_spec_witness : collides (39/2) (13/2) = false := by
  have hf1 : (⌊(39:ℚ)/2 - RADIUS⌋ : ℤ) = 19 := by
    rw [Int.floor_eq_iff]
    constructor <;> norm_num [RADIUS]
  have hf2 : (⌊(39:ℚ)/2 + RADIUS⌋ : ℤ) = 19 := by
    rw [Int.floor_eq_iff]
    constructor <;> norm_num [RADIUS]
  have hf3 : (⌊(13:ℚ)/2 - RADIUS⌋ : ℤ) = 6 := by
    rw [Int.floor_eq_iff]
    constructor <;> norm_num [RADIUS]
  have hf4 : (⌊(13:ℚ)/2 + RADIUS⌋ : ℤ) = 6 := by
    rw [Int.floor_eq_iff]
    constructor <;> norm_num [RADIUS]
  have hnot : ¬ (specCornerBlocked (39/2 - RADIUS) (13/2 - RADIUS) ∨
      specCornerBlocked (39/2 + RADIUS) (13/2 - RADIUS) ∨
      specCornerBlocked (39/2 - RADIUS) (13/2 + RADIUS) ∨
      specCornerBlocked (39/2 + RADIUS) (13/2 + RADIUS)) := by
    simp only [specCornerBlocked, hf1, hf2, hf3, hf4]
    decide
  cases hb : collides (39/2) (13/2) with
  | false => rfl
  | true => exact absurd ((collides_spec (39/2) (13/2)).mp hb) hnot

/-- C7 -- `try_move` is axis-separated: the X move commits exactly when the
target X position (at the current Y) is clear, then the Y move commits exactly
when the target Y position at the possibly-updated X is clear; a move blocked
only along X still updates Y, and a fully blocked move changes nothing. -/
theorem tryMove_spec (px py nx ny : ℚ) :
    (collides nx py = false → collides nx ny = false →
      tryMove px py nx ny = (nx, ny)) ∧
    (collides nx py = false → collides nx ny = true →
      tryMove px py nx ny = (nx, py)) ∧
    (collides nx py = true → collides px ny = false →
      tryMove px py nx ny = (px, ny)) ∧
    (collides nx py = true → collides px ny = true →
      tryMove px py nx ny = (px, py)) := by
  refine ⟨?_, ?_, ?_, ?_⟩ <;> intro h1 h2 <;> simp [tryMove, h1, h2]

/-- C7 witness: from the start cell, a diagonal move into the east wall is
blocked along X but still commits Y (sliding), and a move whose Y leg is also
blocked changes nothing. -/
theorem tryMove_spec_witness :
    tryMove (39/2) (13/2) (47/2) (15/2) = (39/2, 15/2) ∧
    tryMove (39/2) (13/2) (47/2) (3/2) = (39/2, 13/2) := by
  exact ⟨(tryMove_spec (39/2) (13/2) (47/2) (15/2)).2.2.1
          collides_east_wall collides_south_open,
         (tryMove_spec (39/2) (13/2) (47/2) (3/2)).2.2.2
          collides_east_wall collides_north_wall⟩

lemma clamp1_eq_min (t : ℚ) : clamp1 t = min t 1 := by
  unfold clamp1
  split
  · rw [min_eq_right (le_of_lt (by assumption))]
  · rw [min_eq_left (not_lt.mp (by assumption))]

/-- C5 counterexample -- at distance `1/2` the code's index (truncation) is 13
while the spec's rounded formula gives 14. -/
theorem shadeIdx_round_counterexample :
    shadeIdx (1/2) = 13 ∧ specShadeIdxRound (1/2) = 14 ∧ (13 : ℤ) ≠ 14 := by
  refine ⟨?_, ?_, by decide⟩
  · unfold shadeIdx
    have harg : ((1 : ℚ) - clamp1 (1/2 / MAX_SHADE_DIST)) * ((SHADE_LEVELS : ℚ) - 1)
        = 55/4 := by
      rw [clamp1_eq_min]
      rw [min_eq_left (by norm_num [MAX_SHADE_DIST])]
      norm_num [MAX_SHADE_DIST, SHADE_LEVELS]
    rw [harg]
    exact pyInt_eval _ 13 (by norm_num) (by norm_num) (by norm_num)
  · unfold specShadeIdxRound
    have harg : ((1 : ℚ) - min (1/2 / MAX_SHADE_DIST) 1) * ((SHADE_LEVELS : ℚ) - 1)
        = 55/4 := by
      rw [min_eq_left (by norm_num [MAX_SHADE_DIST])]
      norm_num [MAX_SHADE_DIST, SHADE_LEVELS]
    rw [harg, round_eq]
    rw [Int.floor_eq_iff]
    constructor <;> norm_num

/-- C5 (amended) -- the ramp index is the floor (Python `int` truncation of a
nonnegative value) of `(1 - t) * (N - 1)` with `t = min(dist/maxShadeDist, 1)`;
distances at or beyond `MAX_SHADE_DIST` saturate at the dimmest level 0, and
the index always lies within the 16-entry ramp. -/
theorem shadeIdx_spec (d : ℚ) (h0 : 0 ≤ d) :
    shadeIdx d = ⌊(1 - min (d / MAX_SHADE_DIST) 1) * ((SHADE_LEVELS : ℚ) - 1)⌋ ∧
    (MAX_SHADE_DIST ≤ d → shadeIdx d = 0) ∧
    0 ≤ shadeIdx d ∧ shadeIdx d < 16 := by
  have hmin0 : 0 ≤ min (d / MAX_SHADE_DIST) 1 := by
    apply le_min
    · apply div_nonneg h0
      norm_num [MAX_SHADE_DIST]
    · norm_num
  have hmin1 : min (d / MAX_SHADE_DIST) 1 ≤ 1 := min_le_right _ _
  have harg0 : 0 ≤ (1 - min (d / MAX_SHADE_DIST) 1) * ((SHADE_LEVELS : ℚ) - 1) := by
    apply mul_nonneg
    · linarith
    · norm_num [SHADE_LEVELS]
  have harg1 : (1 - min (d / MAX_SHADE_DIST) 1) * ((SHADE_LEVELS : ℚ) - 1) ≤ 15 := by
    have h15 : ((SHADE_LEVELS : ℚ) - 1) = 15 := by norm_num [SHADE_LEVELS]
    rw [h15]
    nlinarith
  have hfloor : shadeIdx d
      = ⌊(1 - min (d / MAX_SHADE_DIST) 1) * ((SHADE_LEVELS : ℚ) - 1)⌋ := by
    unfold shadeIdx pyInt
    rw [clamp1_eq_min]
    rw [if_neg (not_lt.mpr harg0)]
  refine ⟨hfloor, ?_, ?_, ?_⟩
  · intro hd
    have hge1 : (1 : ℚ) ≤ d / MAX_SHADE_DIST := by
      rw [le_div_iff₀ (by norm_num [MAX_SHADE_DIST])]
      linarith
    rw [hfloor, min_eq_right hge1]
    norm_num
  · rw [hfloor]
    exact Int.floor_nonneg.mpr harg0
  · rw [hfloor]
    have hle : ⌊(1 - min (d / MAX_SHADE_DIST) 1) * ((SHADE_LEVELS : ℚ) - 1)⌋ ≤ ⌊(15:ℚ)⌋ :=
      Int.floor_le_floor harg1
    have h15 : (⌊(15 : ℚ)⌋ : ℤ) = 15 := by norm_num
    omega

/-- C5 witness: a distance beyond `MAX_SHADE_DIST` maps to the dimmest level. -/
theorem shadeIdx_spec_witness : shadeIdx 7 = 0 :=
  (shadeIdx_spec 7 (by norm_num)).2.1 (by norm_num [MAX_SHADE_DIST])

lemma clampDir_ne_zero (d : ℚ) : clampDir d ≠ 0 := by
  unfold clampDir
  split
  · norm_num
  · assumption

lemma raySetup_mx (px py rdx rdy : ℚ) : (raySetup px py rdx rdy).mx = pyInt px := rfl

lemma raySetup_my (px py rdx rdy : ℚ) : (raySetup px py rdx rdy).my = pyInt py := rfl

lemma raySetup_dx (px py rdx rdy : ℚ) :
    (raySetup px py rdx rdy).dx = clampDir rdx := rfl

lemma raySetup_dy (px py rdx rdy : ℚ) :
    (raySetup px py rdx rdy).dy = clampDir rdy := rfl

lemma raySetup_sx (px py rdx rdy : ℚ) :
    (raySetup px py rdx rdy).sx = if clampDir rdx < 0 then -1 else 1 := rfl

lemma raySetup_sy (px py rdx rdy : ℚ) :
    (raySetup px py rdx rdy).sy = if clampDir rdy < 0 then -1 else 1 := rfl

/-- C4 counterexample -- the direction component `1e-10` has absolute value
within `1e-9` of zero and is nonzero, yet the guard leaves it unchanged
rather than replacing it by `1e-9`. -/
theorem clampDir_within_eps_counterexample :
    |(1/10000000000 : ℚ)| ≤ 1/1000000000 ∧ (1/10000000000 : ℚ) ≠ 0 ∧
    clampDir (1/10000000000) = 1/10000000000 ∧
    clampDir (1/10000000000) ≠ 1/1000000000 := by
  refine ⟨?_, by norm_num, ?_, ?_⟩
  · rw [abs_of_pos (by norm_num)]
    norm_num
  · unfold clampDir
    rw [if_neg (by norm_num)]
  · unfold clampDir
    rw [if_neg (by norm_num)]
    norm_num

/-- C4 (amended) -- only a component exactly equal to zero is replaced by
`1e-9`; any nonzero component is used unchanged.  Either way the clamped
component is nonzero, so the `deltaDist` divisions never divide by zero. -/
theorem clampDir_spec (d : ℚ) :
    clampDir d ≠ 0 ∧
    (d = 0 → clampDir d = 1/1000000000) ∧
    (d ≠ 0 → clampDir d = d) := by
  refine ⟨clampDir_ne_zero d, ?_, ?_⟩
  · intro h
    unfold clampDir
    rw [if_pos h]
  · intro h
    unfold clampDir
    rw [if_neg h]

/-- C4 witness: the guard at the two kinds of inputs. -/
theorem clampDir_spec_witness :
    clampDir 0 = 1/1000000000 ∧ clampDir 5 = 5 :=
  ⟨(clampDir_spec 0).2.1 rfl, (clampDir_spec 5).2.2 (by norm_num)⟩

/-- C3 -- whenever the DDA loop exhausts its iteration budget without a Wall
or Door hit, `cast_ray` does not fail: it returns the sentinel distance `1e9`
with hit kind Wall (`'#'`).  The program runs the loop with budget 64. -/
theorem castRayFuel_exhausted (fuel : ℕ) (px py rdx rdy : ℚ)
    (h : ddaLoop (raySetup px py rdx rdy).ddx (raySetup px py rdx rdy).ddy
      (raySetup px py rdx rdy).sx (raySetup px py rdx rdy).sy fuel
      (raySetup px py rdx rdy).sdx (raySetup px py rdx rdy).sdy
      (raySetup px py rdx rdy).mx (raySetup px py rdx rdy).my = none) :
    castRayFuel fuel px py rdx rdy = (1000000000, '#') := by
  simp only [castRayFuel]
  rw [h]

/-- C3 witness: with a zero iteration budget the loop is exhausted at once and
the sentinel is returned. -/
theorem castRayFuel_exhausted_witness :
    castRayFuel 0 (39/2) (13/2) 1 0 = (1000000000, '#') :=
  castRayFuel_exhausted 0 (39/2) (13/2) 1 0 rfl

lemma capX_one (mx : ℤ) : capX 1 mx = 41 - mx := by
  simp [capX, MAP_W]

lemma capX_negone (mx : ℤ) : capX (-1) mx = mx + 1 := by
  norm_num [capX]

lemma capY_one (my : ℤ) : capY 1 my = 18 - my := by
  simp [capY, MAP_H]

lemma capY_negone (my : ℤ) : capY (-1) my = my + 1 := by
  norm_num [capY]

/-- Termination of the DDA loop: from any in-bounds cell, a budget at least as
large as the combined step capacity guarantees a hit is found. -/
lemma ddaLoop_hits (ddx ddy : ℚ) (sx sy : ℤ)
    (hsx : sx = 1 ∨ sx = -1) (hsy : sy = 1 ∨ sy = -1) :
    ∀ (fuel : ℕ) (sdx sdy : ℚ) (mx my : ℤ),
      0 ≤ mx → mx < 41 → 0 ≤ my → my < 18 →
      capX sx mx + capY sy my ≤ (fuel : ℤ) →
      (ddaLoop ddx ddy sx sy fuel sdx sdy mx my).isSome = true := by
  intro fuel
  induction fuel with
  | zero =>
    intro sdx sdy mx my h1 h2 h3 h4 hcap
    exfalso
    rcases hsx with rfl | rfl <;> rcases hsy with rfl | rfl <;>
      simp only [capX_one, capX_negone, capY_one, capY_negone] at hcap <;> omega
  | succ fuel ih =>
    intro sdx sdy mx my h1 h2 h3 h4 hcap
    simp only [ddaLoop]
    split
    · split
      · simp
      · split
        · simp
        · next hoob _ =>
          push_neg at hoob
          rw [show MAP_W = (41:ℤ) from rfl, show MAP_H = (18:ℤ) from rfl] at hoob
          apply ih
          · exact hoob.1
          · exact hoob.2.2.1
          · exact h3
          · exact h4
          · have hstep : capX sx (mx + sx) = capX sx mx - 1 := by
              rcases hsx with rfl | rfl
              · rw [capX_one, capX_one]
                ring
              · rw [capX_negone, capX_negone]
                ring
            push_cast at hcap
            omega
    · split
      · simp
      · split
        · simp
        · next hoob _ =>
          push_neg at hoob
          rw [show MAP_W = (41:ℤ) from rfl, show MAP_H = (18:ℤ) from rfl] at hoob
          apply ih
          · exact h1
          · exact h2
          · exact hoob.2.1
          · exact hoob.2.2.2
          · have hstep : capY sy (my + sy) = capY sy my - 1 := by
              rcases hsy with rfl | rfl
              · rw [capY_one, capY_one]
                ring
              · rw [capY_negone, capY_negone]
                ring
            push_cast at hcap
            omega

/-- Invariants of a DDA hit: the side marker is 0 or 1, the hit tile is a Wall
or Door symbol, and the final cell lies strictly beyond the start cell along
the axis that was stepped last, in the direction of that axis's step sign. -/
lemma ddaLoop_result (ddx ddy : ℚ) (sx sy : ℤ) :
    ∀ (fuel : ℕ) (sdx sdy : ℚ) (mx my : ℤ) (r : DdaHit),
      ddaLoop ddx ddy sx sy fuel sdx sdy mx my = some r →
      (r.side = 0 ∨ r.side = 1) ∧
      (r.tile = '#' ∨ r.tile = 'D') ∧
      (r.side = 0 → (sx = 1 → mx + 1 ≤ r.mx) ∧ (sx = -1 → r.mx ≤ mx - 1)) ∧
      (r.side = 1 → (sy = 1 → my + 1 ≤ r.my) ∧ (sy = -1 → r.my ≤ my - 1)) := by
  intro fuel
  induction fuel with
  | zero =>
    intro sdx sdy mx my r h
    simp [ddaLoop] at h
  | succ fuel ih =>
    intro sdx sdy mx my r h
    simp only [ddaLoop] at h
    split at h
    · split at h
      · injection h with h
        subst h
        refine ⟨Or.inl rfl, Or.inl rfl, ?_, ?_⟩
        · intro _
          constructor
          · intro hs1
            subst hs1
            simp
          · intro hs1
            subst hs1
            simp
        · intro hside
          simp at hside
      · split at h
        · next htile =>
          injection h with h
          subst h
          refine ⟨Or.inl rfl, htile, ?_, ?_⟩
          · intro _
            constructor
            · intro hs1
              subst hs1
              simp
            · intro hs1
              subst hs1
              simp
          · intro hside
            simp at hside
        · have hr := ih _ _ _ _ _ h
          refine ⟨hr.1, hr.2.1, ?_, hr.2.2.2⟩
          intro hside
          have h0 := hr.2.2.1 hside
          constructor
          · intro hs1
            have := h0.1 hs1
            omega
          · intro hs1
            have := h0.2 hs1
            omega
    · split at h
      · injection h with h
        subst h
        refine ⟨Or.inr rfl, Or.inl rfl, ?_, ?_⟩
        · intro hside
          simp at hside
        · intro _
          constructor
          · intro hs1
            subst hs1
            simp
          · intro hs1
            subst hs1
            simp
      · split at h
        · next htile =>
          injection h with h
          subst h
          refine ⟨Or.inr rfl, htile, ?_, ?_⟩
          · intro hside
            simp at hside
          · intro _
            constructor
            · intro hs1
              subst hs1
              simp
            · intro hs1
              subst hs1
              simp
        · have hr := ih _ _ _ _ _ h
          refine ⟨hr.1, hr.2.1, hr.2.2.1, ?_⟩
          intro hside
          have h0 := hr.2.2.2 hside
          constructor
          · intro hs1
            have := h0.1 hs1
            omega
          · intro hs1
            have := h0.2 hs1
            omega

lemma bounds_of_isWall_false (mx my : ℤ) (h : isWall mx my = false) :
    0 ≤ mx ∧ mx < 41 ∧ 0 ≤ my ∧ my < 18 := by
  unfold isWall at h
  split at h
  · exact absurd h (by simp)
  · next hc =>
    push_neg at hc
    rw [show MAP_W = (41:ℤ) from rfl, show MAP_H = (18:ℤ) from rfl] at hc
    exact ⟨hc.1, hc.2.2.1, hc.2.1, hc.2.2.2⟩

/-- C2 -- for a camera strictly inside an Open cell and any ray direction, the
DDA loop of `cast_ray` finds a hit within its 64-iteration cap, and `cast_ray`
returns a non-negative distance together with a Wall or Door hit kind. -/
theorem castRay_open_cell (px py rdx rdy : ℚ) (mx my : ℤ)
    (hx1 : (mx : ℚ) < px) (hx2 : px < (mx : ℚ) + 1)
    (hy1 : (my : ℚ) < py) (hy2 : py < (my : ℚ) + 1)
    (hw : isWall mx my = false) (hd : isDoor mx my = false) :
    castRayHits px py rdx rdy = true ∧
    0 ≤ (castRay px py rdx rdy).1 ∧
    ((castRay px py rdx rdy).2 = '#' ∨ (castRay px py rdx rdy).2 = 'D') := by
  obtain ⟨hmx0, hmx1, hmy0, hmy1⟩ := bounds_of_isWall_false mx my hw
  have hpx0 : (0:ℚ) ≤ px := le_trans (by exact_mod_cast hmx0) (le_of_lt hx1)
  have hpy0 : (0:ℚ) ≤ py := le_trans (by exact_mod_cast hmy0) (le_of_lt hy1)
  have hsmx : (raySetup px py rdx rdy).mx = mx := by
    rw [raySetup_mx]
    exact pyInt_eval px mx hpx0 (le_of_lt hx1) hx2
  have hsmy : (raySetup px py rdx rdy).my = my := by
    rw [raySetup_my]
    exact pyInt_eval py my hpy0 (le_of_lt hy1) hy2
  have hsxor : (raySetup px py rdx rdy).sx = 1 ∨ (raySetup px py rdx rdy).sx = -1 := by
    rw [raySetup_sx]
    split
    · exact Or.inr rfl
    · exact Or.inl rfl
  have hsyor : (raySetup px py rdx rdy).sy = 1 ∨ (raySetup px py rdx rdy).sy = -1 := by
    rw [raySetup_sy]
    split
    · exact Or.inr rfl
    · exact Or.inl rfl
  have hdxpos : (raySetup px py rdx rdy).sx = 1 → 0 < (raySetup px py rdx rdy).dx := by
    rw [raySetup_sx, raySetup_dx]
    split
    · intro h
      exact absurd h (by norm_num)
    · next hc =>
      intro _
      exact lt_of_le_of_ne (not_lt.mp hc) (Ne.symm (clampDir_ne_zero rdx))
  have hdxneg : (raySetup px py rdx rdy).sx = -1 → (raySetup px py rdx rdy).dx < 0 := by
    rw [raySetup_sx, raySetup_dx]
    split
    · next hc =>
      intro _
      exact hc
    · intro h
      exact absurd h (by norm_num)
  have hdypos : (raySetup px py rdx rdy).sy = 1 → 0 < (raySetup px py rdx rdy).dy := by
    rw [raySetup_sy, raySetup_dy]
    split
    · intro h
      exact absurd h (by norm_num)
    · next hc =>
      intro _
      exact lt_of_le_of_ne (not_lt.mp hc) (Ne.symm (clampDir_ne_zero rdy))
  have hdyneg : (raySetup px py rdx rdy).sy = -1 → (raySetup px py rdx rdy).dy < 0 := by
    rw [raySetup_sy, raySetup_dy]
    split
    · next hc =>
      intro _
      exact hc
    · intro h
      exact absurd h (by norm_num)
  have hcap : capX (raySetup px py rdx rdy).sx (raySetup px py rdx rdy).mx +
      capY (raySetup px py rdx rdy).sy (raySetup px py rdx rdy).my ≤ ((64:ℕ) : ℤ) := by
    rw [hsmx, hsmy]
    rcases hsxor with h | h <;> rcases hsyor with h' | h' <;> rw [h, h'] <;>
      simp only [capX_one, capX_negone, capY_one, capY_negone] <;> push_cast <;> omega
  have hhit := ddaLoop_hits (raySetup px py rdx rdy).ddx (raySetup px py rdx rdy).ddy
      (raySetup px py rdx rdy).sx (raySetup px py rdx rdy).sy hsxor hsyor 64
      (raySetup px py rdx rdy).sdx (raySetup px py rdx rdy).sdy
      (raySetup px py rdx rdy).mx (raySetup px py rdx rdy).my
      (by rw [hsmx]; exact hmx0) (by rw [hsmx]; exact hmx1)
      (by rw [hsmy]; exact hmy0) (by rw [hsmy]; exact hmy1) hcap
  obtain ⟨r, hr⟩ := Option.isSome_iff_exists.mp hhit
  have hinv := ddaLoop_result (raySetup px py rdx rdy).ddx (raySetup px py rdx rdy).ddy
      (raySetup px py rdx rdy).sx (raySetup px py rdx rdy).sy 64
      (raySetup px py rdx rdy).sdx (raySetup px py rdx rdy).sdy
      (raySetup px py rdx rdy).mx (raySetup px py rdx rdy).my r hr
  have hval : castRay px py rdx rdy = (rayDist px py (raySetup px py rdx rdy) r, r.tile) := by
    simp only [castRay, castRayFuel]
    rw [hr]
  refine ⟨?_, ?_, ?_⟩
  · simp only [castRayHits]
    rw [hr]
    rfl
  · rw [hval]
    show 0 ≤ rayDist px py (raySetup px py rdx rdy) r
    unfold rayDist
    split
    · next hside =>
      have hxcl := hinv.2.2.1 hside
      rcases hsxor with hs | hs
      · have hdx := hdxpos hs
        have hmxle : mx + 1 ≤ r.mx := by
          have h0 := hxcl.1 hs
          rw [hsmx] at h0
          exact h0
        rw [hs]
        have hnum : 0 ≤ (r.mx : ℚ) - px + (1 - ((1:ℤ) : ℚ)) * (1/2) := by
          have hcast : (mx:ℚ) + 1 ≤ (r.mx : ℚ) := by exact_mod_cast hmxle
          push_cast
          linarith
        exact div_nonneg hnum (le_of_lt hdx)
      · have hdx := hdxneg hs
        have hmxle : r.mx ≤ mx - 1 := by
          have h0 := hxcl.2 hs
          rw [hsmx] at h0
          exact h0
        rw [hs]
        have hnum : (r.mx : ℚ) - px + (1 - ((-1:ℤ) : ℚ)) * (1/2) ≤ 0 := by
          have hcast : (r.mx : ℚ) ≤ (mx:ℚ) - 1 := by exact_mod_cast hmxle
          push_cast
          linarith
        exact div_nonneg_of_nonpos hnum (le_of_lt hdx)
    · next hside =>
      have hside1 : r.side = 1 := by
        rcases hinv.1 with h | h
        · exact absurd h hside
        · exact h
      have hycl := hinv.2.2.2 hside1
      rcases hsyor with hs | hs
      · have hdy := hdypos hs
        have hmyle : my + 1 ≤ r.my := by
          have h0 := hycl.1 hs
          rw [hsmy] at h0
          exact h0
        rw [hs]
        have hnum : 0 ≤ (r.my : ℚ) - py + (1 - ((1:ℤ) : ℚ)) * (1/2) := by
          have hcast : (my:ℚ) + 1 ≤ (r.my : ℚ) := by exact_mod_cast hmyle
          push_cast
          linarith
        exact div_nonneg hnum (le_of_lt hdy)
      · have hdy := hdyneg hs
        have hmyle : r.my ≤ my - 1 := by
          have h0 := hycl.2 hs
          rw [hsmy] at h0
          exact h0
        rw [hs]
        have hnum : (r.my : ℚ) - py + (1 - ((-1:ℤ) : ℚ)) * (1/2) ≤ 0 := by
          have hcast : (r.my : ℚ) ≤ (my:ℚ) - 1 := by exact_mod_cast hmyle
          push_cast
          linarith
        exact div_nonneg_of_nonpos hnum (le_of_lt hdy)
  · rw [hval]
    exact hinv.2.1

/-- C2 witness: from the start position, strictly inside the Open cell
`(19, 6)`, a concrete ray hits within the cap with a valid result. -/
theorem castRay_open_cell_witness :
    castRayHits (39/2) (13/2) 1 0 = true ∧
    0 ≤ (castRay (39/2) (13/2) 1 0).1 ∧
    ((castRay (39/2) (13/2) 1 0).2 = '#' ∨ (castRay (39/2) (13/2) 1 0).2 = 'D') :=
  castRay_open_cell (39/2) (13/2) 1 0 19 6 (by norm_num) (by norm_num)
    (by norm_num) (by norm_num) (by decide) (by decide)

/-- Extending a pending run by one column width covers exactly the old run's
pixels plus the adjacent column-wide strip. -/
lemma runPixels_grow (p : Run) (hw : 0 ≤ p.w) :
    runPixels {p with w := p.w + COL_W} =
    runPixels p ∪ runPixels ⟨p.col, p.x + p.w, COL_W, p.y0, p.h⟩ := by
  obtain ⟨c0, x0, w0, y00, h0⟩ := p
  simp only at hw
  have hCW : COL_W = (4:ℤ) := rfl
  ext q
  simp only [runPixels, Set.mem_union, Set.mem_setOf_eq]
  constructor
  · rintro ⟨h1, h2, h3, h4, h5⟩
    by_cases hc : q.1.1 < x0 + w0
    · exact Or.inl ⟨h1, hc, h3, h4, h5⟩
    · push_neg at hc
      exact Or.inr ⟨hc, by omega, h3, h4, h5⟩
  · rintro (⟨h1, h2, h3, h4, h5⟩ | ⟨h1, h2, h3, h4, h5⟩)
    · exact ⟨h1, by omega, h3, h4, h5⟩
    · exact ⟨by omega, by omega, h3, h4, h5⟩

/-- Invariant step for the merge loop: with a pending run ending exactly at
column `i`'s left edge, the merged output covers the pending run's pixels plus
those of all remaining columns. -/
lemma mergeGo_pixels :
    ∀ (cols : List ColSlice) (i : ℤ) (p : Run),
      p.x + p.w = i * COL_W → 0 ≤ p.w →
      runsPixels (mergeGo i p cols) = runPixels p ∪ colsPixels i cols := by
  intro cols
  induction cols with
  | nil =>
    intro i p hpx hw
    simp [mergeGo, runsPixels, colsPixels]
  | cons c rest ih =>
    intro i p hpx hw
    obtain ⟨cc, cy, ch⟩ := c
    simp only [mergeGo, colsPixels]
    split
    · next hcond =>
      obtain ⟨h1, h2, h3, h4⟩ := hcond
      rw [ih (i + 1) {p with w := p.w + COL_W}
        (by simp only; rw [show COL_W = (4:ℤ) from rfl] at hpx ⊢; omega)
        (by simp only; rw [show COL_W = (4:ℤ) from rfl]; omega)]
      rw [runPixels_grow p hw]
      have hcol : colPixels i (cc, cy, ch) =
          runPixels ⟨p.col, p.x + p.w, COL_W, p.y0, p.h⟩ := by
        simp only [colPixels]
        rw [h1, h2, h3, ← h4]
      rw [hcol, Set.union_assoc]
    · simp only [runsPixels]
      rw [ih (i + 1) ⟨cc, i * COL_W, COL_W, cy, ch⟩
        (by simp only; ring)
        (by simp only; rw [show COL_W = (4:ℤ) from rfl]; omega)]
      simp only [colPixels]

/-- C1 -- loss-free run merging: for any sequence of per-column
(colour, y0, height) slices, the rectangles emitted by the merge accumulator
cover exactly the same coloured pixels as drawing every column rectangle
individually. -/
theorem mergeRuns_lossfree (cols : List ColSlice) :
    runsPixels (mergeRuns cols) = colsPixels 0 cols := by
  cases cols with
  | nil => rfl
  | cons c rest =>
    obtain ⟨cc, cy, ch⟩ := c
    simp only [mergeRuns]
    rw [mergeGo_pixels rest 1 ⟨cc, 0, COL_W, cy, ch⟩
      (by simp only; rw [show COL_W = (4:ℤ) from rfl]; ring)
      (by simp only; rw [show COL_W = (4:ℤ) from rfl]; omega)]
    simp only [colsPixels, colPixels]
    norm_num

/-- C9 -- after the unconditional startup render, the render pass is invoked
on a tick exactly when some intent is non-zero; in particular an idle tick
(all three intents zero) never invokes the render pass. -/
theorem tick_render_iff (sinT cosT : ℤ → ℚ) (s : GState) (k : Keys) (dt : ℚ) :
    ((tick sinT cosT s k dt).2 = true ↔
      (turnIntent k ≠ 0 ∨ fwdIntent k ≠ 0 ∨ strafeIntent k ≠ 0)) ∧
    ((turnIntent k = 0 ∧ fwdIntent k = 0 ∧ strafeIntent k = 0) →
      (tick sinT cosT s k dt).2 = false) := by
  have h2 : (tick sinT cosT s k dt).2 = needRender k := rfl
  constructor
  · rw [h2]
    simp [needRender, Bool.or_eq_true, decide_eq_true_eq, or_assoc]
  · rintro ⟨ha, hb, hc⟩
    rw [h2]
    unfold needRender
    rw [decide_eq_false (not_not_intro ha), decide_eq_false (not_not_intro hb),
        decide_eq_false (not_not_intro hc)]
    rfl

/-- C9 witness: a fully idle tick does not render. -/
theorem tick_render_iff_witness :
    (tick (fun _ => 0) (fun _ => 0) ⟨39/2, 13/2, 0⟩
      ⟨false, false, false, false, false, false, false, false⟩ 1).2 = false :=
  (tick_render_iff (fun _ => 0) (fun _ => 0) ⟨39/2, 13/2, 0⟩
      ⟨false, false, false, false, false, false, false, false⟩ 1).2
    ⟨by norm_num [turnIntent], by norm_num [fwdIntent], by norm_num [strafeIntent]⟩

/-- C10 -- after every turning update the orientation is an integer in
`[0, 360)`, so indexing any 360-entry trigonometry table with it is within
bounds. -/
theorem angUpdate_spec (a : ℤ) (t d : ℚ) :
    0 ≤ angUpdate a t d ∧ angUpdate a t d < 360 ∧
    ∀ (T : List ℚ), T.length = 360 → (angUpdate a t d).toNat < T.length := by
  have h0 : 0 ≤ angUpdate a t d := by
    unfold angUpdate
    exact Int.emod_nonneg _ (by norm_num)
  have h1 : angUpdate a t d < 360 := by
    unfold angUpdate
    exact Int.emod_lt_of_pos _ (by norm_num)
  refine ⟨h0, h1, ?_⟩
  intro T hT
  rw [hT]
  omega

/-- C10 witness: a concrete turning update indexes a 360-entry table in
bounds. -/
theorem angUpdate_spec_witness :
    (angUpdate 0 1 1).toNat < (List.replicate 360 (0:ℚ)).length :=
  (angUpdate_spec 0 1 1).2.2 (List.replicate 360 0) (by rw [List.length_replicate])
